import Mathlib

/-!
Shallow embedding of the settlement and scoring core of the BetSocial /
"Bet Buddies" league platform (React + Supabase), together with proofs
checking the natural-language specification against the code.

The embedding follows the source:
* `update_card_score` — the PL/pgSQL trigger recomputing `cards.total_score`;
* `getTuesdayWeekStart`, `getLeagueWeekNumber` — `src/src/lib/weekUtils.ts`
  (modelled at day granularity: a timestamp is an integer number of days,
  day 0 = 1970-01-01, a Thursday);
* `getWeekNumberBetting` — the separate `getWeekNumber` helper inside
  `src/src/pages/Betting.tsx` (millisecond granularity);
* `upcomingEvents`, `lockedBets`, `editableBetEventIds`, `handleSelectTeam`,
  `submitCard` — the pick submission/edit path of `src/src/pages/Betting.tsx`;
* `weeklyData`, `userRankingPointsMap`, `allTimeData` — the leaderboard
  computations of `src/src/components/LeagueLeaderboard.tsx`.  JavaScript
  `Array.prototype.sort` is stable, so it is modelled by the stable
  `List.insertionSort`;
* `gradeTotalPick` — the grading rule for TOTAL picks; the grading engine
  itself (a backend sync script) is not part of the repository sources, so
  it is modelled from the specification, see its doc comment.
-/

namespace BetBuddies

/-- `MAX_PICKS` constant from `src/src/pages/Betting.tsx`. -/
def MAX_PICKS : Nat := 5

/-- A row of the `upcoming_events` table as read by the betting page
(`event_id`, team ids, `start_date`); `start_date` is a millisecond
timestamp (an ISO string in the source).  The table has no game-state
column: the source decides everything from `start_date` alone.  The source
query also orders ascending by `start_date`; ordering is irrelevant to the
lock partition, which only tests membership. -/
structure EventRow where
  event_id : String
  home_team_id : String
  away_team_id : String
  start_date : Int
  deriving Repr, DecidableEq

/-- A row of the `bets` table: `card_id`, `event_id`, the selected team,
the captured `line`, and the grading `result` column, a nullable boolean
(`some true` = won, `some false` = lost, `none` = pending/ungraded). -/
structure BetRow where
  card_id : Nat
  event_id : String
  selected_team_id : String
  home_team_id : String
  away_team_id : String
  line : Int
  result : Option Bool
  deriving Repr, DecidableEq

/-- A row of the `cards` table: unique per
(`user_id`, `league_id`, `week_number`, `season_year`), carrying the
derived `total_score`. -/
structure CardRow where
  id : Nat
  user_id : String
  league_id : String
  week_number : Int
  season_year : Int
  total_score : Nat
  deriving Repr, DecidableEq

/-- The relevant slice of the database: the `cards` and `bets` tables. -/
structure DB where
  cards : List CardRow
  bets : List BetRow
  deriving Repr, DecidableEq

/-- The bets belonging to one card (`WHERE bets.card_id = ...`). -/
def cardBets (db : DB) (cid : Nat) : List BetRow :=
  db.bets.filter (fun b => b.card_id == cid)

/-- The PL/pgSQL trigger function `public.update_card_score`: the new
`total_score` of a card is `SELECT COALESCE(COUNT(*), 0) FROM bets WHERE
bets.card_id = <card> AND bets.result = true`. -/
def update_card_score (bets : List BetRow) (cid : Nat) : Nat :=
  (bets.filter (fun b => b.card_id == cid && b.result == some true)).length

/-- Effect of firing the trigger for a card: `UPDATE cards SET total_score =
... WHERE id = <card>`; the `bets` table is not modified. -/
def applyScoreTrigger (db : DB) (cid : Nat) : DB :=
  { db with
    cards := db.cards.map (fun c =>
      if c.id == cid then { c with total_score := update_card_score db.bets cid } else c) }

/-- The default point-value policy: one point per winning pick (the spec's
replaceable `pointValue`, instantiated to the source's counting rule). -/
def pointValue (_p : BetRow) : Nat := 1

/-! ## Week numbering (`src/src/lib/weekUtils.ts` and `Betting.tsx`) -/

/-- JavaScript `Date.prototype.getDay` on a day-granularity timeline:
day 0 = 1970-01-01 was a Thursday (`getDay` = 4); 0 = Sunday … 6 = Saturday. -/
def getDay (d : Int) : Int := (d + 4).emod 7

/-- `(day + 5) % 7` — days since the last Tuesday (`getTuesdayWeekStart`).
The JavaScript `%` operand is nonnegative here, so it agrees with `emod`. -/
def daysSinceTuesday (d : Int) : Int := (getDay d + 5).emod 7

/-- `getTuesdayWeekStart` from `weekUtils.ts`: the Tuesday (start of day)
of the week containing `d`. -/
def getTuesdayWeekStart (d : Int) : Int := d - daysSinceTuesday d

/-- The `firstTuesday` computed inside `getLeagueWeekNumber`: first Tuesday
on/after league creation, via `(2 - day + 7) % 7` (operand nonnegative). -/
def firstTuesday (created : Int) : Int := created + (2 - getDay created + 7).emod 7

/-- `getLeagueWeekNumber(leagueCreatedAt)` from `weekUtils.ts`, with the
implicit `new Date()` made an explicit `now` argument:
`Math.max(1, Math.floor(differenceInDays(currentWeekTuesday, firstTuesday) / 7) + 1)`.
`Math.floor` of a division by 7 is floor division, `Int.fdiv`. -/
def getLeagueWeekNumber (created now : Int) : Int :=
  max 1 ((getTuesdayWeekStart now - firstTuesday created).fdiv 7 + 1)

/-- Specification-side definition, written from the spec's words (§4.1):
the current week is the number of whole week-intervals elapsed since the
anchor (the first boundary weekday on/after creation), floor-divided by
7 days, plus 1, clamped to a minimum of 1. -/
def currentWeekSpec (created now : Int) : Int :=
  max 1 ((now - firstTuesday created).fdiv 7 + 1)

/-- The separate `getWeekNumber` helper in `src/src/pages/Betting.tsx`,
used when submitting a card: `Math.ceil((now - startOfYear) / oneWeek)`
with `oneWeek = 604800000` ms and `startOfYear` = Jan 1 of the current
year.  `Math.ceil (a / b)` for integer `a` and positive `b` is
`-((-a).fdiv b)`. -/
def getWeekNumberBetting (nowMs yearStartMs : Int) : Int :=
  -((-(nowMs - yearStartMs)).fdiv 604800000)

/-! ## Pick submission and editing (`src/src/pages/Betting.tsx`) -/

/-- The `upcoming-events` query:
`from("upcoming_events").select("*").gte("start_date", now)` — events whose
`start_date` is on/after the current time. -/
def upcomingEvents (allEvents : List EventRow) (now : Int) : List EventRow :=
  allEvents.filter (fun e => now ≤ e.start_date)

/-- The `lockedBets` half of the `useMemo` partition in `Betting.tsx`
(lines 101–121): an existing bet is locked exactly when its event is *not*
in the fetched upcoming-events list. -/
def lockedBets (existingBets : List BetRow) (events : List EventRow) : List BetRow :=
  existingBets.filter (fun b => !(events.any (fun e => e.event_id == b.event_id)))

/-- The `editableBetEventIds` half of the same partition: event ids of the
existing bets whose event is still in the upcoming list. -/
def editableBetEventIds (existingBets : List BetRow) (events : List EventRow) : List String :=
  (existingBets.filter (fun b => events.any (fun e => e.event_id == b.event_id))).map
    (·.event_id)

/-- The `BetSelection` record of `Betting.tsx`. -/
structure BetSelection where
  eventId : String
  teamId : String
  line : Int
  homeTeamId : String
  awayTeamId : String
  deriving Repr, DecidableEq

/-- The React state `selections : Record<string, BetSelection>`, modelled
as an association list in key-insertion order (JavaScript objects preserve
string-key insertion order; updating an existing key keeps its position,
a fresh key is appended). -/
abbrev Selections := List (String × BetSelection)

/-- `{...prev, [k]: v}` — update in place if the key exists, else append. -/
def recordSet (prev : Selections) (k : String) (v : BetSelection) : Selections :=
  if prev.any (fun p => p.1 == k) then
    prev.map (fun p => if p.1 == k then (k, v) else p)
  else prev ++ [(k, v)]

/-- `const {[k]: _, ...rest} = prev` — remove a key. -/
def recordRemove (prev : Selections) (k : String) : Selections :=
  prev.filter (fun p => !(p.1 == k))

/-- `handleSelectTeam` from `Betting.tsx` (lines 244–279): no-op if the
event is not in the upcoming list; clicking the already-selected team
deselects (idempotent toggle); a brand-new selection is refused when
`selections` plus the locked bets already reach `MAX_PICKS` (a toast, no
state change); otherwise the selection is stored under the event's key. -/
def handleSelectTeam (events : List EventRow) (lockedCount : Nat) (prev : Selections)
    (eventId teamId : String) (line : Int) : Selections :=
  match events.find? (fun e => e.event_id == eventId) with
  | none => prev
  | some event =>
    match prev.lookup eventId with
    | some existing =>
      if existing.teamId == teamId then recordRemove prev eventId
      else recordSet prev eventId
        { eventId := eventId, teamId := teamId, line := line,
          homeTeamId := event.home_team_id, awayTeamId := event.away_team_id }
    | none =>
      if MAX_PICKS ≤ prev.length + lockedCount then prev
      else recordSet prev eventId
        { eventId := eventId, teamId := teamId, line := line,
          homeTeamId := event.home_team_id, awayTeamId := event.away_team_id }

/-- The ways `submitCardMutation`'s `mutationFn` can throw before touching
the database: "Please select at least one pick" and
"Maximum 5 picks allowed (including N locked picks)" (the latter names the
number of slots consumed by locked picks). -/
inductive SubmitError where
  | emptyCard
  | capacityExceeded (lockedCount : Nat)
  deriving Repr, DecidableEq

/-- The bet row inserted for one selection (`betsToInsert` mapping):
fresh bets start ungraded (`result` null). -/
def betOfSelection (cid : Nat) (s : BetSelection) : BetRow :=
  { card_id := cid, event_id := s.eventId, selected_team_id := s.teamId,
    home_team_id := s.homeTeamId, away_team_id := s.awayTeamId,
    line := s.line, result := none }

/-- `submitCardMutation`'s `mutationFn` (lines 144–222 of `Betting.tsx`).
Arguments mirror the component state it closes over: the current
`selections`, the memoised `lockedBets`, the `existingCard` query result
and the `isEditing` flag.  Both throws happen before any database write,
so the error branches return the database unchanged.
On the edit path the source deletes the card's bets whose `event_id` is
not among the locked event ids (or all of them when no bet is locked —
the same keep-predicate) and inserts the new bets; on the create path it
inserts a fresh card row (id `newCardId`) and the new bets. -/
def submitCard (db : DB) (existingCard : Option CardRow) (isEditing : Bool)
    (selections : Selections) (locked : List BetRow)
    (user league : String) (week year : Int) (newCardId : Nat) :
    DB × Except SubmitError Nat :=
  let betsArray := selections.map (·.2)
  let totalPicks := betsArray.length + locked.length
  if totalPicks = 0 then (db, .error .emptyCard)
  else if MAX_PICKS < totalPicks then (db, .error (.capacityExceeded locked.length))
  else
    let createPath : DB × Except SubmitError Nat :=
      let newCard : CardRow :=
        { id := newCardId, user_id := user, league_id := league,
          week_number := week, season_year := year, total_score := 0 }
      let inserted := betsArray.map (betOfSelection newCardId)
      ({ cards := db.cards ++ [newCard], bets := db.bets ++ inserted }, .ok newCardId)
    match existingCard, isEditing with
    | some card, true =>
      let lockedEventIds := locked.map (·.event_id)
      let keptBets := db.bets.filter
        (fun b => !(b.card_id == card.id) || lockedEventIds.contains b.event_id)
      let inserted := betsArray.map (betOfSelection card.id)
      ({ db with bets := keptBets ++ inserted }, .ok card.id)
    | some _, false => createPath
    | none, _ => createPath

/-! ## Leaderboards (`src/src/components/LeagueLeaderboard.tsx`) -/

/-- One `LeaderboardEntry` (the source stores the user id under the field
name `odile`; presentation-only fields `username`/`avatarUrl` are
omitted). -/
structure LBEntry where
  odile : String
  rank : Nat
  wins : Nat
  losses : Nat
  winRate : Nat
  points : Nat
  deriving Repr, DecidableEq

/-- `cardUserMap` lookup: the user owning the card a bet belongs to. -/
def betUser (cards : List CardRow) (b : BetRow) : Option String :=
  (cards.find? (fun c => c.id == b.card_id)).map (·.user_id)

/-- `userBetStats` wins for one user: the `forEach` loop counts the bets
whose card belongs to the user and whose `result === true`. -/
def userWins (cards : List CardRow) (bets : List BetRow) (u : String) : Nat :=
  (bets.filter (fun b => betUser cards b == some u && b.result == some true)).length

/-- `userBetStats` losses: bets of the user with `result === false`
(`result === null` counts as neither a win nor a loss). -/
def userLosses (cards : List CardRow) (bets : List BetRow) (u : String) : Nat :=
  (bets.filter (fun b => betUser cards b == some u && b.result == some false)).length

/-- `Math.round((wins / total) * 100)` for `total > 0`, else 0; JavaScript
rounds half away from zero, which for nonnegative operands is
`(200 * wins + total) / (2 * total)` in floor division. -/
def winRate (wins losses : Nat) : Nat :=
  let total := wins + losses
  if 0 < total then (200 * wins + total) / (2 * total) else 0

/-- The leaderboard entry built from one card in `weeklyData`
(`points` is the card's `total_score`, `rank` is a placeholder 1 until
assigned). -/
def mkWeeklyEntry (cards : List CardRow) (bets : List BetRow) (c : CardRow) : LBEntry :=
  let w := userWins cards bets c.user_id
  let l := userLosses cards bets c.user_id
  { odile := c.user_id, rank := 1, wins := w, losses := l,
    winRate := winRate w l, points := c.total_score }

/-- The comparator `(a, b) => b.points - a.points`: descending by points. -/
def entryPointsDesc (a b : LBEntry) : Prop := b.points ≤ a.points

instance : DecidableRel entryPointsDesc :=
  fun a b => inferInstanceAs (Decidable (b.points ≤ a.points))

instance : IsTotal LBEntry entryPointsDesc :=
  ⟨fun a b => le_total b.points a.points⟩

instance : IsTrans LBEntry entryPointsDesc :=
  ⟨fun _ _ _ h h2 => le_trans h2 h⟩

/-- `weeklyData` (lines 74–92): build an entry per card of the selected
(league, week, year) — the `cards` argument is the already-filtered query
result — sort by points descending (JavaScript's stable sort, modelled by
the stable `insertionSort`), then assign `rank = index + 1`. -/
def weeklyData (cards : List CardRow) (bets : List BetRow) : List LBEntry :=
  (((cards.map (mkWeeklyEntry cards bets)).insertionSort entryPointsDesc).enum).map
    (fun p => { p.2 with rank := p.1 + 1 })

/-- The `${season_year}-${week_number}` grouping key of `allTimeData`. -/
def weekKey (c : CardRow) : Int × Int := (c.season_year, c.week_number)

/-- The group keys in first-encounter order (JavaScript object key
insertion order over `weeklyCards`). -/
def weeklyGroupKeys (cards : List CardRow) : List (Int × Int) :=
  (cards.map weekKey).eraseDups

/-- Card comparator `(a, b) => (b.total_score || 0) - (a.total_score || 0)`. -/
def cardScoreDesc (a b : CardRow) : Prop := b.total_score ≤ a.total_score

instance : DecidableRel cardScoreDesc :=
  fun a b => inferInstanceAs (Decidable (b.total_score ≤ a.total_score))

instance : IsTotal CardRow cardScoreDesc :=
  ⟨fun a b => le_total b.total_score a.total_score⟩

instance : IsTrans CardRow cardScoreDesc :=
  ⟨fun _ _ _ h h2 => le_trans h2 h⟩

/-- One week's cards sorted by `total_score` descending (stable). -/
def weekCardsSorted (cards : List CardRow) (k : Int × Int) : List CardRow :=
  (cards.filter (fun c => weekKey c == k)).insertionSort cardScoreDesc

/-- The per-card ranking-point assignments of one week group:
`sorted.forEach((card, index) => ... Math.max(1, 10 - index) ...)`.
`10 - index` is truncated ℕ subtraction, which agrees with the JavaScript
value after `Math.max(1, ·)`. -/
def weekAssignments (cards : List CardRow) (k : Int × Int) : List (String × Nat) :=
  (weekCardsSorted cards k).enum.map (fun p => (p.2.user_id, max 1 (10 - p.1)))

/-- All (user, rankPoints) assignments, groups in first-encounter order. -/
def allAssignments (cards : List CardRow) : List (String × Nat) :=
  (weeklyGroupKeys cards).flatMap (weekAssignments cards)

/-- `userRankingPoints[card.user_id] = (userRankingPoints[card.user_id] || 0) + rankPoints`:
add to an existing key in place, or append a fresh key. -/
def bump (m : List (String × Nat)) (k : String) (v : Nat) : List (String × Nat) :=
  if m.any (fun p => p.1 == k) then
    m.map (fun p => if p.1 == k then (p.1, p.2 + v) else p)
  else m ++ [(k, v)]

/-- The accumulated `userRankingPoints` record of `allTimeData`
(lines 141–155). -/
def userRankingPointsMap (cards : List CardRow) : List (String × Nat) :=
  (allAssignments cards).foldl (fun m p => bump m p.1 p.2) []

/-- `allTimeData` (lines 156–175): one entry per user of the
`userRankingPoints` record (`points` = summed ranking points), sorted by
points descending, `rank = index + 1`. -/
def allTimeData (cards : List CardRow) (bets : List BetRow) : List LBEntry :=
  let base := (userRankingPointsMap cards).map (fun p =>
    let w := userWins cards bets p.1
    let l := userLosses cards bets p.1
    { odile := p.1, rank := 1, wins := w, losses := l,
      winRate := winRate w l, points := p.2 : LBEntry })
  ((base.insertionSort entryPointsDesc).enum).map (fun p => { p.2 with rank := p.1 + 1 })

/-! ## Grading of TOTAL picks -/

/-- OVER/UNDER side of a TOTAL pick. -/
inductive TotalSelection where
  | over
  | under
  deriving Repr, DecidableEq

/-- Grading outcome of a pick. -/
inductive GradeResult where
  | won
  | lost
  | push
  deriving Repr, DecidableEq

/-- Modelled from the spec: the grading engine (the backend result-sync
script run by a scheduled job) is not among the repository sources — only
its effect, the `bets.result` column, appears.  Spec §4.3, TOTAL rule:
WON iff (OVER selected AND actualTotal > capturedLine) or (UNDER selected
AND actualTotal < capturedLine); PUSH iff actualTotal equals capturedLine
exactly; otherwise LOST. -/
def gradeTotalPick (sel : TotalSelection) (capturedLine actualTotal : Rat) : GradeResult :=
  if actualTotal = capturedLine then .push
  else match sel with
    | .over => if capturedLine < actualTotal then .won else .lost
    | .under => if actualTotal < capturedLine then .won else .lost

/-- Modelled from the spec: how a grade is stored in the nullable boolean
`bets.result` column (won ↦ true, lost ↦ false; PUSH has no boolean value
and leaves the column null, the value the aggregation code treats as
neither win nor loss). -/
def resultOfGrade : GradeResult → Option Bool
  | .won => some true
  | .lost => some false
  | .push => none

/-! ## Spec-side lock policy and concrete rows used by witnesses -/

/-- Game state as the spec describes it (the source has no such field). -/
inductive GameState where
  | scheduled
  | inProgress
  | final
  deriving Repr, DecidableEq

/-- A game as the spec's §4.1 lock contract sees it. -/
structure SpecGame where
  scheduledStart : Int
  state : GameState
  deriving Repr, DecidableEq

/-- Specification-side definition, written from the spec's words (§4.1):
"a game is locked once `asOf >= scheduledStart` OR `state != SCHEDULED`",
to be compared with the lock criterion the code actually applies. -/
def isLockedSpec (g : SpecGame) (asOf : Int) : Bool :=
  decide (g.scheduledStart ≤ asOf) || decide (g.state ≠ GameState.scheduled)

/-- Sum of points of one user's entries in an association list (the value
the `userRankingPoints` record stores for a user, read off directly). -/
def pointsOf (m : List (String × Nat)) (u : String) : Nat :=
  ((m.filter (fun p => p.1 == u)).map (·.2)).sum

/-- An event whose `start_date` is exactly the current instant used in the
boundary counterexample. -/
def eBoundary : EventRow :=
  { event_id := "E1", home_team_id := "H", away_team_id := "A", start_date := 100 }

/-- An existing bet on `eBoundary`. -/
def bBoundary : BetRow :=
  { card_id := 1, event_id := "E1", selected_team_id := "H", home_team_id := "H",
    away_team_id := "A", line := -110, result := none }

/-- A started (locked) event: `start_date` 50, before the probe time 100. -/
def eStarted : EventRow :=
  { event_id := "E1", home_team_id := "H", away_team_id := "A", start_date := 50 }

/-- A still-open event used alongside `eStarted`. -/
def eOpen : EventRow :=
  { event_id := "E2", home_team_id := "H2", away_team_id := "A2", start_date := 500 }

/-- An existing bet on the started event `eStarted`. -/
def bStarted : BetRow :=
  { card_id := 1, event_id := "E1", selected_team_id := "H", home_team_id := "H",
    away_team_id := "A", line := -110, result := none }

/-- An existing bet on the open event `eOpen`. -/
def bOpen : BetRow :=
  { card_id := 1, event_id := "E2", selected_team_id := "A2", home_team_id := "H2",
    away_team_id := "A2", line := 120, result := none }

/-- Two cards with tied `total_score` (10) for the tie-break counterexample;
`cardTieA` belongs to the lexicographically smaller user id. -/
def cardTieA : CardRow :=
  { id := 11, user_id := "u1", league_id := "L", week_number := 1,
    season_year := 2025, total_score := 10 }

/-- See `cardTieA`. -/
def cardTieB : CardRow :=
  { id := 12, user_id := "u2", league_id := "L", week_number := 1,
    season_year := 2025, total_score := 10 }

/-- The card edited in the edit-path witness. -/
def card5 : CardRow :=
  { id := 1, user_id := "u1", league_id := "L", week_number := 1,
    season_year := 2025, total_score := 0 }

/-- The desired replacement selection on the open event `eOpen`. -/
def sel5 : BetSelection :=
  { eventId := "E2", teamId := "A2", line := 120, homeTeamId := "H2", awayTeamId := "A2" }

/-- Four desired selections for the capacity-overflow witness (together
with two locked picks they exceed `MAX_PICKS = 5`). -/
def selW4 : Selections :=
  [("A", BetSelection.mk "A" "tA" 100 "hA" "aA"),
   ("B", BetSelection.mk "B" "tB" 100 "hB" "aB"),
   ("C", BetSelection.mk "C" "tC" 100 "hC" "aC"),
   ("D", BetSelection.mk "D" "tD" 100 "hD" "aD")]

/-- The upcoming event of the duplicate-selection counterexample. -/
def eC9 : EventRow :=
  { event_id := "E1", home_team_id := "H", away_team_id := "A", start_date := 1000 }

/-- Twelve cards realising the spec's all-time scenario: user `u01` is
alone in week (2025,1) — weekly rank 1, 10 ranking points — and finishes
rank 11 of 11 in week (2025,2) — `max(1, 10-10) = 1` ranking point — for
an all-time total of 11. -/
def cardsE : List CardRow :=
  [CardRow.mk 1 "u01" "L" 1 2025 3,
   CardRow.mk 2 "u02" "L" 2 2025 20, CardRow.mk 3 "u03" "L" 2 2025 19,
   CardRow.mk 4 "u04" "L" 2 2025 18, CardRow.mk 5 "u05" "L" 2 2025 17,
   CardRow.mk 6 "u06" "L" 2 2025 16, CardRow.mk 7 "u07" "L" 2 2025 15,
   CardRow.mk 8 "u08" "L" 2 2025 14, CardRow.mk 9 "u09" "L" 2 2025 13,
   CardRow.mk 10 "u10" "L" 2 2025 12, CardRow.mk 11 "u11" "L" 2 2025 11,
   CardRow.mk 12 "u01" "L" 2 2025 1]

/-- The card of the push-grading witness. -/
def cardsC8 : List CardRow := [CardRow.mk 1 "u1" "L" 1 2025 1]

/-- One already-won bet on the card, so the score before the push is 1. -/
def betsC8 : List BetRow :=
  [{ card_id := 1, event_id := "E9", selected_team_id := "H9", home_team_id := "H9",
     away_team_id := "A9", line := -110, result := some true }]

/-- The bet graded PUSH (stored `result` null). -/
def bC8 : BetRow :=
  { card_id := 1, event_id := "E8", selected_team_id := "under", home_team_id := "H8",
    away_team_id := "A8", line := 45, result := none }

/-! ## Helper lemmas -/

/-- Under the default policy every pick is worth one point, so a sum of
point values is a count. -/
theorem sum_map_pointValue (l : List BetRow) : (l.map pointValue).sum = l.length := by
  induction l with
  | nil => rfl
  | cons b tl ih => simp [pointValue, ih]; omega

/-- **C1**: the recomputed card score of the `update_card_score` trigger is
the sum of `pointValue` over exactly the card's picks whose `result` is won
(`result = true`); lost (`false`) and pending/push (`null`) picks
contribute nothing because they are filtered out.  And firing the trigger
again with no intervening bet change (same `bets` table) leaves the
database — in particular `total_score` — unchanged: recomputation is
idempotent. -/
theorem update_card_score_spec (db : DB) (bets : List BetRow) (cid : Nat) :
    update_card_score bets cid
      = (((bets.filter (fun b => b.card_id == cid)).filter
            (fun b => b.result == some true)).map pointValue).sum
    ∧ applyScoreTrigger (applyScoreTrigger db cid) cid = applyScoreTrigger db cid := by
  constructor
  · rw [sum_map_pointValue, List.filter_filter]
    unfold update_card_score
    congr 1
    exact List.filter_congr (fun b _ => by rw [Bool.and_comm])
  · unfold applyScoreTrigger
    simp only [List.map_map, DB.mk.injEq, and_true]
    refine List.map_congr_left (fun c _ => ?_)
    by_cases h : (c.id == cid) = true
    · simp [Function.comp, h]
    · simp [Function.comp, h]

/-- **C3** (amended): `getLeagueWeekNumber` — the week function of
`weekUtils.ts`, a pure deterministic function of the league-creation and
current timestamps — computes exactly the spec's formula: whole
week-intervals elapsed since the first Tuesday on/after creation,
floor-divided by 7 days, plus 1, clamped to minimum 1.  (What fails in the
claim is only its "used everywhere" part: card submission uses a different
week, see the counterexample.) -/
theorem getLeagueWeekNumber_eq_currentWeekSpec (created now : Int) :
    getLeagueWeekNumber created now = currentWeekSpec created now := by
  unfold getLeagueWeekNumber currentWeekSpec getTuesdayWeekStart daysSinceTuesday
    firstTuesday getDay
  rw [Int.fdiv_eq_ediv _ (by norm_num), Int.fdiv_eq_ediv _ (by norm_num)]
  simp only [show ∀ a : Int, a.emod 7 = a % 7 from fun _ => rfl,
    show ∀ a : Int, a.ediv 7 = a / 7 from fun _ => rfl]
  omega

/-- Counterexample to **C3**: the league-anchored week function is *not*
used at card submission.  At 2025-12-03 00:00 UTC (epoch day 20425, ms
1764720000000; Jan 1 2025 is ms 1735689600000) a league created on Monday
2025-12-01 (epoch day 20423) is in league week 1, but `Betting.tsx`'s own
`getWeekNumber` — used to pick the card's `week_number` on submission —
yields calendar week 48 of the year. -/
theorem card_submission_week_differs :
    getLeagueWeekNumber 20423 20425 = 1
    ∧ getWeekNumberBetting 1764720000000 1735689600000 = 48
    ∧ getWeekNumberBetting 1764720000000 1735689600000 ≠ getLeagueWeekNumber 20423 20425 := by
  refine ⟨by decide, by decide, by decide⟩

/-- **C2** (amended): in the code a pick is locked exactly when the current
time is *strictly after* the game's scheduled start — equivalently, the
game is absent from the upcoming-events query, which keeps events with
`start_date ≥ now`; there is no game-state component.  In particular a game
whose scheduled start equals the current time is still editable.  Both
paths apply this same criterion: the edit path's `lockedBets` /
`editableBetEventIds` partition (first two conjuncts) and the new-pick path
`handleSelectTeam`, which silently ignores any game outside the same
upcoming list (third conjunct). -/
theorem bet_locked_iff (allEvents : List EventRow) (now : Int)
    (existingBets : List BetRow) (b : BetRow) (e : EventRow)
    (cnt : Nat) (prev : Selections) (tid : String) (line : Int)
    (hb : b ∈ existingBets) (he : e ∈ allEvents) (heid : e.event_id = b.event_id)
    (huniq : ∀ e2 ∈ allEvents, e2.event_id = b.event_id → e2 = e) :
    (b ∈ lockedBets existingBets (upcomingEvents allEvents now) ↔ e.start_date < now)
    ∧ (b.event_id ∈ editableBetEventIds existingBets (upcomingEvents allEvents now)
        ↔ now ≤ e.start_date)
    ∧ (e.start_date < now →
        handleSelectTeam (upcomingEvents allEvents now) cnt prev b.event_id tid line = prev) := by
  have hup : ∀ e2 : EventRow, e2 ∈ upcomingEvents allEvents now ↔
      e2 ∈ allEvents ∧ now ≤ e2.start_date := by
    intro e2
    simp [upcomingEvents, List.mem_filter, decide_eq_true_iff]
  have hany : (upcomingEvents allEvents now).any (fun e2 => e2.event_id == b.event_id) = true
      ↔ now ≤ e.start_date := by
    rw [List.any_eq_true]
    constructor
    · rintro ⟨e2, h2, hbeq⟩
      rw [hup] at h2
      rw [huniq e2 h2.1 (by exact beq_iff_eq.mp hbeq)] at h2
      exact h2.2
    · intro hle
      exact ⟨e, (hup e).mpr ⟨he, hle⟩, beq_iff_eq.mpr heid⟩
  refine ⟨?_, ?_, ?_⟩
  · rw [lockedBets, List.mem_filter]
    constructor
    · rintro ⟨-, hp⟩
      rcases lt_or_le e.start_date now with h | h
      · exact h
      · rw [Bool.not_eq_eq_eq_not, Bool.not_true, ← Bool.not_eq_true] at hp
        exact absurd (hany.mpr h) hp
    · intro hlt
      refine ⟨hb, ?_⟩
      rw [Bool.not_eq_eq_eq_not, Bool.not_true, ← Bool.not_eq_true]
      intro hc
      exact absurd (hany.mp hc) (not_le.mpr hlt)
  · rw [editableBetEventIds]
    simp only [List.mem_map, List.mem_filter]
    constructor
    · rintro ⟨b2, ⟨hb2, hb2any⟩, hb2eid⟩
      rw [List.any_eq_true] at hb2any
      rcases hb2any with ⟨e2, he2, hbeq⟩
      rw [hup] at he2
      rw [huniq e2 he2.1 (hb2eid ▸ beq_iff_eq.mp hbeq)] at he2
      exact he2.2
    · intro hle
      exact ⟨b, ⟨hb, hany.mpr hle⟩, rfl⟩
  · intro hlt
    have hfind : (upcomingEvents allEvents now).find? (fun e2 => e2.event_id == b.event_id)
        = none := by
      rw [List.find?_eq_none]
      intro e2 h2
      rw [hup] at h2
      intro hbeq
      rw [huniq e2 h2.1 (beq_iff_eq.mp hbeq)] at h2
      exact absurd h2.2 (not_le.mpr hlt)
    rw [handleSelectTeam, hfind]

/-- Witness for `bet_locked_iff`: at time 100, with the events table
holding `eStarted` (start 50) and `eOpen` (start 500), the existing bet on
`eStarted` is in the locked partition, the bet on `eOpen` is editable, and
a selection attempt on the started game is silently ignored. -/
theorem bet_locked_iff_witness :
    (bStarted ∈ lockedBets [bStarted, bOpen] (upcomingEvents [eStarted, eOpen] 100)
      ↔ eStarted.start_date < 100)
    ∧ (bStarted.event_id ∈ editableBetEventIds [bStarted, bOpen]
          (upcomingEvents [eStarted, eOpen] 100) ↔ (100 : Int) ≤ eStarted.start_date)
    ∧ (eStarted.start_date < 100 →
        handleSelectTeam (upcomingEvents [eStarted, eOpen] 100) 0 [] bStarted.event_id "H" 5
          = []) :=
  bet_locked_iff [eStarted, eOpen] 100 [bStarted, bOpen] bStarted eStarted 0 [] "H" 5
    (by decide) (by decide) (by decide) (by decide)

/-- Counterexample to **C2**: a game whose scheduled start equals the
current time.  The spec-side `isLocked` (locked once `asOf ≥
scheduledStart` or state ≠ scheduled) says the pick is already locked, but
the code keeps the event in the upcoming list (`start_date ≥ now`), so the
existing bet lands in the *editable* partition, not the locked one. -/
theorem lock_at_start_time_countereg :
    isLockedSpec { scheduledStart := 100, state := GameState.scheduled } 100 = true
    ∧ lockedBets [bBoundary] (upcomingEvents [eBoundary] 100) = []
    ∧ editableBetEventIds [bBoundary] (upcomingEvents [eBoundary] 100) = ["E1"] := by
  refine ⟨by decide, by decide, by decide⟩

/-- Keeping, among a card's bets, exactly those whose `event_id` occurs in
the locked partition's event-id list recovers the locked partition itself:
the lock predicate depends only on the event id. -/
theorem filter_contains_locked (l : List BetRow) (events : List EventRow) :
    l.filter (fun b => ((lockedBets l events).map (·.event_id)).contains b.event_id)
      = lockedBets l events := by
  conv_rhs => rw [lockedBets]
  refine List.filter_congr (fun b hb => ?_)
  rw [Bool.eq_iff_iff, List.elem_iff]
  simp only [List.mem_map, lockedBets, List.mem_filter]
  constructor
  · rintro ⟨b2, ⟨-, hp2⟩, heq⟩
    rwa [heq] at hp2
  · intro hp
    exact ⟨b, ⟨hb, hp⟩, rfl⟩

/-- The successful edit path of `submitCardMutation`, in closed form: with
the locked partition computed from the card's own bets, a non-empty
submission within capacity succeeds and the card's bets afterwards are
exactly the locked bets followed by the freshly inserted desired picks. -/
theorem submitCard_edit_eq (db : DB) (card : CardRow) (events : List EventRow)
    (selections : Selections) (u lg : String) (w y : Int) (n : Nat)
    (h0 : selections.length + (lockedBets (cardBets db card.id) events).length ≠ 0)
    (h5 : selections.length + (lockedBets (cardBets db card.id) events).length ≤ MAX_PICKS) :
    ∃ db2,
      submitCard db (some card) true selections (lockedBets (cardBets db card.id) events)
          u lg w y n
        = (db2, Except.ok card.id)
      ∧ cardBets db2 card.id
        = lockedBets (cardBets db card.id) events
            ++ selections.map (fun p => betOfSelection card.id p.2) := by
  have hrun : submitCard db (some card) true selections
      (lockedBets (cardBets db card.id) events) u lg w y n
      = (DB.mk db.cards
          (db.bets.filter (fun b => !(b.card_id == card.id)
              || ((lockedBets (cardBets db card.id) events).map (·.event_id)).contains
                  b.event_id)
            ++ (selections.map (·.2)).map (betOfSelection card.id)),
         Except.ok card.id) := by
    simp only [submitCard, List.length_map]
    rw [if_neg h0, if_neg (by omega)]
  refine ⟨_, hrun, ?_⟩
  rw [cardBets, List.filter_append]
  congr 1
  · rw [List.filter_filter]
    have hsplit : (db.bets.filter (fun b =>
          (b.card_id == card.id)
            && (!(b.card_id == card.id)
                || ((lockedBets (cardBets db card.id) events).map (·.event_id)).contains
                    b.event_id)))
        = (cardBets db card.id).filter (fun b =>
            ((lockedBets (cardBets db card.id) events).map (·.event_id)).contains
              b.event_id) := by
      rw [cardBets, List.filter_filter]
      refine List.filter_congr (fun b _ => ?_)
      by_cases h : (b.card_id == card.id) = true <;> simp [h]
    rw [hsplit, filter_contains_locked]
  · have hall : ∀ b ∈ (selections.map (·.2)).map (betOfSelection card.id),
        (b.card_id == card.id) = true := by
      intro b hbmem
      rcases List.mem_map.mp hbmem with ⟨p, -, hp⟩
      rw [← hp]
      exact beq_self_eq_true card.id
    rw [List.filter_eq_self.mpr hall, List.map_map]
    rfl

/-- **C4**: first conjunct — when the locked picks plus the desired picks
exceed `MAX_PICKS`, `submitCardMutation` throws before any write, naming
the number of slots consumed by locked picks, and the database (hence the
Card and its picks) is returned unchanged.  Second and third conjuncts —
any *successful* submission (edit path with the locked partition taken
from the card's own bets, or create path with a fresh card id) leaves the
card with at most `MAX_PICKS` picks. -/
theorem submitCard_capacity (db : DB) (events : List EventRow)
    (existingCard : Option CardRow) (isEditing : Bool)
    (selections : Selections) (locked : List BetRow)
    (u lg : String) (w y : Int) (n : Nat) :
    (MAX_PICKS < selections.length + locked.length →
        submitCard db existingCard isEditing selections locked u lg w y n
          = (db, Except.error (SubmitError.capacityExceeded locked.length)))
    ∧ (∀ card db2 r, existingCard = some card → isEditing = true →
        locked = lockedBets (cardBets db card.id) events →
        submitCard db existingCard isEditing selections locked u lg w y n
          = (db2, Except.ok r) →
        (cardBets db2 r).length ≤ MAX_PICKS)
    ∧ (∀ db2 r, (existingCard = none ∨ isEditing = false) →
        cardBets db n = [] →
        submitCard db existingCard isEditing selections locked u lg w y n
          = (db2, Except.ok r) →
        (cardBets db2 r).length ≤ MAX_PICKS) := by
  refine ⟨?_, ?_, ?_⟩
  · intro hover
    rw [submitCard.eq_def]
    simp only [List.length_map]
    rw [if_neg (by omega), if_pos hover]
  · rintro card db2 r rfl rfl hlocked hrun
    by_cases h0 : selections.length + locked.length = 0
    · rw [submitCard.eq_def] at hrun
      simp only [List.length_map] at hrun
      rw [if_pos h0] at hrun
      exact absurd (congrArg Prod.snd hrun) (by simp)
    · by_cases h5 : MAX_PICKS < selections.length + locked.length
      · rw [submitCard.eq_def] at hrun
        simp only [List.length_map] at hrun
        rw [if_neg h0, if_pos h5] at hrun
        exact absurd (congrArg Prod.snd hrun) (by simp)
      · subst hlocked
        rcases submitCard_edit_eq db card events selections u lg w y n h0 (by omega) with
          ⟨db3, heq, hbets⟩
        rw [heq] at hrun
        have hdb : db3 = db2 := congrArg Prod.fst hrun
        have hr : r = card.id := by
          have := congrArg Prod.snd hrun
          simpa using this.symm
        subst hdb
        subst hr
        rw [hbets, List.length_append, List.length_map]
        omega
  · rintro db2 r hcase hfresh hrun
    by_cases h0 : selections.length + locked.length = 0
    · rw [submitCard.eq_def] at hrun
      simp only [List.length_map] at hrun
      rw [if_pos h0] at hrun
      exact absurd (congrArg Prod.snd hrun) (by simp)
    · by_cases h5 : MAX_PICKS < selections.length + locked.length
      · rw [submitCard.eq_def] at hrun
        simp only [List.length_map] at hrun
        rw [if_neg h0, if_pos h5] at hrun
        exact absurd (congrArg Prod.snd hrun) (by simp)
      · have hcreate : submitCard db existingCard isEditing selections locked u lg w y n
            = (DB.mk (db.cards ++ [CardRow.mk n u lg w y 0])
                (db.bets ++ (selections.map (·.2)).map (betOfSelection n)),
               Except.ok n) := by
          rw [submitCard.eq_def]
          simp only [List.length_map]
          rw [if_neg h0, if_neg h5]
          rcases hcase with hnone | hfalse
          · subst hnone; rfl
          · subst hfalse
            cases existingCard <;> rfl
        rw [hcreate] at hrun
        have hdb : _ = db2 := congrArg Prod.fst hrun
        have hr : r = n := by
          have := congrArg Prod.snd hrun
          simpa using this.symm
        rw [hr, ← hdb, cardBets, List.filter_append]
        have h1 : db.bets.filter (fun b => b.card_id == n) = [] := hfresh
        rw [h1]
        simp only [List.nil_append]
        calc (((selections.map (·.2)).map (betOfSelection n)).filter
                (fun b => b.card_id == n)).length
            ≤ ((selections.map (·.2)).map (betOfSelection n)).length :=
              List.length_filter_le _ _
          _ = selections.length := by simp
          _ ≤ MAX_PICKS := by omega

/-- Witness for `submitCard_capacity`: with 2 locked picks and 4 desired
picks (2 + 4 = 6 > 5) the submission fails with `capacityExceeded 2` and
the database comes back unchanged; and a successful 1-pick create-path
submission yields a card within `MAX_PICKS`. -/
theorem submitCard_capacity_witness :
    (submitCard (DB.mk [] []) (some card5) true selW4 [bStarted, bOpen] "u1" "L" 1 2025 9
      = (DB.mk [] [], Except.error (SubmitError.capacityExceeded 2)))
    ∧ (cardBets
        (submitCard (DB.mk [] []) none false [("E2", sel5)] [] "u" "L" 1 2025 7).1 7).length
        ≤ MAX_PICKS :=
  ⟨(submitCard_capacity (DB.mk [] []) [] (some card5) true selW4 [bStarted, bOpen]
      "u1" "L" 1 2025 9).1 (by decide),
   (submitCard_capacity (DB.mk [] []) [] none false [("E2", sel5)] []
      "u" "L" 1 2025 7).2.2
     (submitCard (DB.mk [] []) none false [("E2", sel5)] [] "u" "L" 1 2025 7).1 7
     (Or.inl rfl) rfl rfl⟩

/-- **C5**: a successful card edit replaces all editable picks — the
card's bets afterwards are exactly the locked partition (each locked row
untouched, in place) followed by the bets built from the submitted desired
selections, the old editable rows being deleted.  A changed selection for
a locked game never reaches the submission: `handleSelectTeam` silently
drops any click on a game absent from the upcoming list (second conjunct),
leaving the selections unchanged, with no error raised. -/
theorem submitCard_edit_frame (db : DB) (card : CardRow) (events : List EventRow)
    (selections prev : Selections) (u lg : String) (w y : Int) (n : Nat)
    (cnt : Nat) (eid tid : String) (line : Int)
    (h0 : selections.length + (lockedBets (cardBets db card.id) events).length ≠ 0)
    (h5 : selections.length + (lockedBets (cardBets db card.id) events).length ≤ MAX_PICKS)
    (hlockedGame : events.find? (fun e => e.event_id == eid) = none) :
    (∃ db2,
      submitCard db (some card) true selections (lockedBets (cardBets db card.id) events)
          u lg w y n
        = (db2, Except.ok card.id)
      ∧ cardBets db2 card.id
        = lockedBets (cardBets db card.id) events
            ++ selections.map (fun p => betOfSelection card.id p.2))
    ∧ handleSelectTeam events cnt prev eid tid line = prev := by
  refine ⟨submitCard_edit_eq db card events selections u lg w y n h0 h5, ?_⟩
  rw [handleSelectTeam, hlockedGame]

/-- Witness for `submitCard_edit_frame`: card 1 holds a locked bet on the
started game `E1` and an editable bet on the open game `E2`; replacing the
`E2` pick succeeds, keeps the `E1` row verbatim, and a click on the locked
game `E1` is ignored. -/
theorem submitCard_edit_frame_witness :
    (∃ db2,
      submitCard (DB.mk [card5] [bStarted, bOpen]) (some card5) true [("E2", sel5)]
          (lockedBets (cardBets (DB.mk [card5] [bStarted, bOpen]) card5.id) [eOpen])
          "u1" "L" 1 2025 9
        = (db2, Except.ok card5.id)
      ∧ cardBets db2 card5.id
        = lockedBets (cardBets (DB.mk [card5] [bStarted, bOpen]) card5.id) [eOpen]
            ++ [("E2", sel5)].map (fun p => betOfSelection card5.id p.2))
    ∧ handleSelectTeam [eOpen] 1 [] "E1" "H" (-110) = [] :=
  submitCard_edit_frame (DB.mk [card5] [bStarted, bOpen]) card5 [eOpen] [("E2", sel5)] []
    "u1" "L" 1 2025 9 1 "E1" "H" (-110) (by decide) (by decide) (by decide)

/-- **C10**: a submission with no new selections and no locked picks
(`totalPicks = 0`) is rejected with the "Please select at least one pick"
error, thrown before any database access: the returned database is the
input database, so no Card row is created or modified. -/
theorem submitCard_empty_rejected (db : DB) (existingCard : Option CardRow)
    (isEditing : Bool) (u lg : String) (w y : Int) (n : Nat) :
    submitCard db existingCard isEditing [] [] u lg w y n
      = (db, Except.error SubmitError.emptyCard) := rfl

/-- Removing a key from the selections record preserves distinctness of
its keys. -/
theorem recordRemove_keys_nodup (prev : Selections) (k : String)
    (h : (prev.map (·.1)).Nodup) : ((recordRemove prev k).map (·.1)).Nodup :=
  List.Nodup.sublist ((List.filter_sublist prev).map (·.1)) h

/-- Writing a key into the selections record preserves distinctness of its
keys: an existing key is updated in place, a fresh key is appended. -/
theorem recordSet_keys_nodup (prev : Selections) (k : String) (v : BetSelection)
    (h : (prev.map (·.1)).Nodup) : ((recordSet prev k v).map (·.1)).Nodup := by
  rw [recordSet]
  by_cases hany : (prev.any (fun p => p.1 == k)) = true
  · rw [if_pos hany, List.map_map]
    have hfst : ((fun p : String × BetSelection => p.1)
          ∘ fun p => if p.1 == k then (k, v) else p)
        = fun p : String × BetSelection => p.1 := by
      funext p
      by_cases hk : (p.1 == k) = true
      · simp [Function.comp, hk, (beq_iff_eq.mp hk).symm]
      · simp [Function.comp, hk]
    rw [hfst]
    exact h
  · rw [if_neg hany, List.map_append, List.nodup_append]
    refine ⟨h, List.nodup_singleton _, ?_⟩
    intro s hs hs2
    rcases List.mem_map.mp hs with ⟨p, hp, rfl⟩
    simp only [List.map_cons, List.map_nil, List.mem_singleton] at hs2
    exact hany (List.any_eq_true.mpr ⟨p, hp, beq_iff_eq.mpr hs2⟩)

/-- **C9** (amended): one submission can never contain two picks on the
same game (and bet kind): the selections record is keyed by the event id —
`eventId-betType` in the multi-bet-kind modal — so every selection state
reachable through `handleSelectTeam` keeps its keys distinct.  A repeated
selection on the same key toggles the pick off or replaces it (see the
counterexample), it is not kept as a duplicate and raises no error; no
`DuplicateSelection` rejection exists in the code. -/
theorem handleSelectTeam_keys_nodup (events : List EventRow) (cnt : Nat)
    (prev : Selections) (eid tid : String) (line : Int)
    (h : (prev.map (·.1)).Nodup) :
    ((handleSelectTeam events cnt prev eid tid line).map (·.1)).Nodup := by
  cases hf : events.find? (fun e => e.event_id == eid) with
  | none =>
    simp only [handleSelectTeam, hf]
    exact h
  | some ev =>
    cases hl : prev.lookup eid with
    | some ex =>
      by_cases ht : (ex.teamId == tid) = true
      · simp only [handleSelectTeam, hf, hl]
        rw [if_pos ht]
        exact recordRemove_keys_nodup prev eid h
      · simp only [handleSelectTeam, hf, hl]
        rw [if_neg ht]
        exact recordSet_keys_nodup prev eid _ h
    | none =>
      by_cases hcap : MAX_PICKS ≤ prev.length + cnt
      · simp only [handleSelectTeam, hf, hl]
        rw [if_pos hcap]
        exact h
      · simp only [handleSelectTeam, hf, hl]
        rw [if_neg hcap]
        exact recordSet_keys_nodup prev eid _ h

/-- Witness for `handleSelectTeam_keys_nodup`: starting from a one-pick
state with distinct keys, selecting the upcoming game `E1` keeps the keys
distinct. -/
theorem handleSelectTeam_keys_nodup_witness :
    ((handleSelectTeam [eC9] 0 [("E2", sel5)] "E1" "A" 120).map (·.1)).Nodup :=
  handleSelectTeam_keys_nodup [eC9] 0 [("E2", sel5)] "E1" "A" 120 (by decide)

/-- Counterexample to **C9**: picking team `A` and then team `H` on the
same game `E1` — two desired picks on one game with the same (moneyline)
bet kind — is *not* rejected: the second selection replaces the first
under the shared key, and the submission then succeeds (`Except.ok`), so
no `DuplicateSelection` error is ever produced. -/
theorem duplicate_selection_countereg :
    handleSelectTeam [eC9] 0 (handleSelectTeam [eC9] 0 [] "E1" "A" 120) "E1" "H" 130
      = [("E1", { eventId := "E1", teamId := "H", line := 130,
                  homeTeamId := "H", awayTeamId := "A" })]
    ∧ (submitCard (DB.mk [] []) none false
          (handleSelectTeam [eC9] 0 (handleSelectTeam [eC9] 0 [] "E1" "A" 120) "E1" "H" 130)
          [] "u" "lg" 1 2025 7).2 = Except.ok 7 := by
  refine ⟨by decide, rfl⟩

/-- Assigning `rank := index + 1` along an enumeration yields the ranks
`n+1, n+2, …` in order. -/
theorem enumFrom_map_rank (l : List LBEntry) (n : Nat) :
    ((List.enumFrom n l).map (fun p => ({ p.2 with rank := p.1 + 1 } : LBEntry))).map (·.rank)
      = List.range' (n + 1) l.length := by
  induction l generalizing n with
  | nil => rfl
  | cons a tl ih =>
    simp only [List.enumFrom, List.map_cons, List.length_cons, List.range'_succ]
    rw [ih]

/-- **C6** (amended): both the weekly and the all-time leaderboard assign
the full list of distinct ranks `1..N` — `rank = index + 1` after sorting —
so every entry gets a distinct rank even when points tie.  (What fails in
the claim is the tie-break: tied entries keep their input order under the
stable sort — there is no secondary key — see the counterexample.) -/
theorem standings_ranks_total (cards : List CardRow) (bets : List BetRow) :
    ((weeklyData cards bets).map (·.rank) = List.range' 1 cards.length
      ∧ ((weeklyData cards bets).map (·.rank)).Nodup)
    ∧ ((allTimeData cards bets).map (·.rank)
          = List.range' 1 (userRankingPointsMap cards).length
      ∧ ((allTimeData cards bets).map (·.rank)).Nodup) := by
  have henum : ∀ (l2 : List LBEntry), l2.enum = List.enumFrom 0 l2 := fun _ => rfl
  have hw : (weeklyData cards bets).map (·.rank) = List.range' 1 cards.length := by
    rw [weeklyData, henum, enumFrom_map_rank]
    rw [List.length_insertionSort, List.length_map]
  have ha : (allTimeData cards bets).map (·.rank)
      = List.range' 1 (userRankingPointsMap cards).length := by
    rw [allTimeData]
    simp only
    rw [henum, enumFrom_map_rank]
    rw [List.length_insertionSort, List.length_map]
  refine ⟨⟨hw, ?_⟩, ⟨ha, ?_⟩⟩
  · rw [hw]
    exact List.nodup_range' 1 cards.length
  · rw [ha]
    exact List.nodup_range' 1 (userRankingPointsMap cards).length

/-- Counterexample to **C6**: two cards tied at 10 points.  With input
order `[cardTieB (user u2), cardTieA (user u1)]` the stable sort keeps u2
first, so the *lower* user id u1 gets rank 2; with the opposite input
order the ranks swap.  Tied entries are therefore ordered by input
(database fetch) order, not by any deterministic secondary key such as
"lower user id ranks higher". -/
theorem weekly_tiebreak_countereg :
    (weeklyData [cardTieB, cardTieA] []).map (fun e => (e.odile, e.rank))
      = [("u2", 1), ("u1", 2)]
    ∧ (weeklyData [cardTieA, cardTieB] []).map (fun e => (e.odile, e.rank))
      = [("u1", 1), ("u2", 2)] := by
  refine ⟨by decide, by decide⟩

/-- `pointsOf` over a cons: the head contributes its value when its key
matches. -/
theorem pointsOf_cons (p : String × Nat) (tl : List (String × Nat)) (u : String) :
    pointsOf (p :: tl) u = (if p.1 = u then p.2 else 0) + pointsOf tl u := by
  by_cases h : p.1 = u <;>
    simp [pointsOf, List.filter_cons, h]

/-- `pointsOf` distributes over append. -/
theorem pointsOf_append (m1 m2 : List (String × Nat)) (u : String) :
    pointsOf (m1 ++ m2) u = pointsOf m1 u + pointsOf m2 u := by
  rw [pointsOf, pointsOf, pointsOf, List.filter_append, List.map_append, List.sum_append]

/-- In-place update branch of `bump`: when the key `k` is present (and
keys are distinct), adding `v` to its entry adds `v` to the points read
for `k` and changes nothing else. -/
theorem pointsOf_map_addv (m : List (String × Nat)) (k u : String) (v : Nat)
    (hnd : (m.map (·.1)).Nodup) (hk : m.any (fun p => p.1 == k) = true) :
    pointsOf (m.map (fun p => if p.1 == k then (p.1, p.2 + v) else p)) u
      = pointsOf m u + (if u = k then v else 0) := by
  induction m with
  | nil => simp at hk
  | cons p tl ih =>
    rw [List.map_cons] at hnd ⊢
    rcases List.nodup_cons.mp hnd with ⟨hpnot, htlnd⟩
    by_cases hpk : (p.1 == k) = true
    · rw [if_pos hpk]
      have hp1 : p.1 = k := beq_iff_eq.mp hpk
      have htl : tl.map (fun q => if q.1 == k then (q.1, q.2 + v) else q) = tl := by
        conv_rhs => rw [← List.map_id tl]
        refine List.map_congr_left (fun q hq => ?_)
        have hqk : (q.1 == k) = false := by
          by_contra hc
          have hq1 : q.1 = k := beq_iff_eq.mp (by revert hc; cases q.1 == k <;> simp)
          exact hpnot (List.mem_map.mpr ⟨q, hq, by rw [hq1, hp1]⟩)
        rw [hqk]
        rfl
      rw [htl, pointsOf_cons, pointsOf_cons]
      by_cases hu : u = k
      · rw [if_pos hu]
        have : p.1 = u := by rw [hp1, hu]
        rw [if_pos this, if_pos this]
        omega
      · rw [if_neg hu]
        have : ¬ p.1 = u := by rw [hp1]; exact fun hc => hu hc.symm
        rw [if_neg this, if_neg this]
        omega
    · rw [if_neg hpk]
      have hktl : tl.any (fun q => q.1 == k) = true := by
        rcases List.any_eq_true.mp hk with ⟨q, hq, hqk⟩
        rcases List.mem_cons.mp hq with rfl | hq2
        · exact absurd hqk hpk
        · exact List.any_eq_true.mpr ⟨q, hq2, hqk⟩
      rw [pointsOf_cons, pointsOf_cons, ih htlnd hktl]
      omega

/-- `bump` adds `v` to the points read for `k` and changes nothing else. -/
theorem bump_pointsOf (m : List (String × Nat)) (k u : String) (v : Nat)
    (hnd : (m.map (·.1)).Nodup) :
    pointsOf (bump m k v) u = pointsOf m u + (if u = k then v else 0) := by
  rw [bump]
  by_cases hany : (m.any (fun p => p.1 == k)) = true
  · rw [if_pos hany]
    exact pointsOf_map_addv m k u v hnd hany
  · rw [if_neg hany, pointsOf_append, pointsOf_cons]
    by_cases hu : u = k
    · rw [if_pos hu, if_pos hu.symm]
      rfl
    · rw [if_neg hu, if_neg (fun hc => hu hc.symm)]
      rfl

/-- `bump` preserves distinctness of the record's keys. -/
theorem bump_keys_nodup (m : List (String × Nat)) (k : String) (v : Nat)
    (hnd : (m.map (·.1)).Nodup) : ((bump m k v).map (·.1)).Nodup := by
  rw [bump]
  by_cases hany : (m.any (fun p => p.1 == k)) = true
  · rw [if_pos hany, List.map_map]
    have hfst : ((fun p : String × Nat => p.1)
          ∘ fun p => if p.1 == k then (p.1, p.2 + v) else p)
        = fun p : String × Nat => p.1 := by
      funext p
      by_cases hpk : (p.1 == k) = true <;> simp [Function.comp, hpk]
    rw [hfst]
    exact hnd
  · rw [if_neg hany, List.map_append, List.nodup_append]
    refine ⟨hnd, List.nodup_singleton _, ?_⟩
    intro s hs hs2
    rcases List.mem_map.mp hs with ⟨p, hp, rfl⟩
    simp only [List.map_cons, List.map_nil, List.mem_singleton] at hs2
    exact hany (List.any_eq_true.mpr ⟨p, hp, beq_iff_eq.mpr hs2⟩)

/-- Folding `bump` over any assignment list preserves key distinctness. -/
theorem foldl_bump_keys_nodup (l : List (String × Nat)) (m : List (String × Nat))
    (hnd : (m.map (·.1)).Nodup) :
    ((l.foldl (fun acc p => bump acc p.1 p.2) m).map (·.1)).Nodup := by
  induction l generalizing m with
  | nil => exact hnd
  | cons p tl ih => exact ih _ (bump_keys_nodup m p.1 p.2 hnd)

/-- Folding `bump` over an assignment list accumulates, per user, exactly
the sum of that user's assigned values. -/
theorem foldl_bump_pointsOf (l : List (String × Nat)) (m : List (String × Nat)) (u : String)
    (hnd : (m.map (·.1)).Nodup) :
    pointsOf (l.foldl (fun acc p => bump acc p.1 p.2) m) u
      = pointsOf m u + ((l.filter (fun p => p.1 == u)).map (·.2)).sum := by
  induction l generalizing m with
  | nil => simp
  | cons p tl ih =>
    rw [List.foldl_cons, ih _ (bump_keys_nodup m p.1 p.2 hnd),
      bump_pointsOf m p.1 u p.2 hnd, List.filter_cons]
    by_cases h : (p.1 == u) = true
    · rw [if_pos h, if_pos (beq_iff_eq.mp h).symm, List.map_cons, List.sum_cons]
      omega
    · rw [if_neg h, if_neg (fun hc : u = p.1 => by rw [beq_iff_eq.mpr hc.symm] at h; simp at h)]
      omega

/-- Splitting a filtered value-sum along the groups of a `flatMap`. -/
theorem sum_filter_values_flatMap (ks : List (Int × Int))
    (f : Int × Int → List (String × Nat)) (u : String) :
    (((ks.flatMap f).filter (fun p => p.1 == u)).map (·.2)).sum
      = (ks.map (fun k => (((f k).filter (fun p => p.1 == u)).map (·.2)).sum)).sum := by
  induction ks with
  | nil => rfl
  | cons k tl ih =>
    rw [List.flatMap_cons, List.filter_append, List.map_append, List.sum_append, ih,
      List.map_cons, List.sum_cons]

/-- One week group's contribution to a user, read off the enumerated
sorted week: the entry at 0-based index `i` (1-based rank `i + 1`)
contributes `max 1 (10 - ((i + 1) - 1))` when it is the user's. -/
theorem weekAssignments_user_sum (l : List (Nat × CardRow)) (u : String) :
    (((l.map (fun p => (p.2.user_id, max 1 (10 - p.1)))).filter
        (fun p => p.1 == u)).map (·.2)).sum
      = ((l.filter (fun p => p.2.user_id == u)).map
          (fun p => max 1 (10 - ((p.1 + 1) - 1)))).sum := by
  induction l with
  | nil => rfl
  | cons p tl ih =>
    rw [List.map_cons, List.filter_cons, List.filter_cons]
    by_cases h : (p.2.user_id == u) = true
    · rw [if_pos h, if_pos h, List.map_cons, List.map_cons, List.sum_cons, List.sum_cons, ih]
      simp
    · rw [if_neg h, if_neg h, ih]

/-- With distinct keys, the points read for the key of a stored entry are
exactly that entry's value. -/
theorem pointsOf_eq_of_mem (m : List (String × Nat)) (p : String × Nat)
    (hnd : (m.map (·.1)).Nodup) (hp : p ∈ m) : pointsOf m p.1 = p.2 := by
  induction m with
  | nil => cases hp
  | cons q tl ih =>
    rw [List.map_cons] at hnd
    rcases List.nodup_cons.mp hnd with ⟨hnotin, htlnd⟩
    rcases List.mem_cons.mp hp with rfl | hp2
    · rw [pointsOf_cons, if_pos rfl]
      have hz : pointsOf tl p.1 = 0 := by
        rw [pointsOf]
        have hnil : tl.filter (fun r => r.1 == p.1) = [] := by
          rw [List.filter_eq_nil_iff]
          intro r hr hc
          exact hnotin (List.mem_map.mpr ⟨r, hr, beq_iff_eq.mp hc⟩)
        rw [hnil]
        rfl
      omega
    · rw [pointsOf_cons]
      have hq : ¬ q.1 = p.1 := fun hc =>
        hnotin (List.mem_map.mpr ⟨p, hp2, hc.symm⟩)
      rw [if_neg hq, ih htlnd hp2]
      omega

/-- The second component of an enumerated element is an element. -/
theorem snd_mem_of_mem_enumFrom {α : Type} (l : List α) (n : Nat) (p : Nat × α)
    (hp : p ∈ List.enumFrom n l) : p.2 ∈ l := by
  induction l generalizing n with
  | nil => cases hp
  | cons a tl ih =>
    rcases List.mem_cons.mp hp with rfl | h2
    · exact List.mem_cons_self _ _
    · exact List.mem_cons_of_mem _ (ih (n + 1) h2)

/-- `Pairwise` transfers along enumeration. -/
theorem pairwise_enumFrom {α : Type} (R : α → α → Prop) (l : List α) (n : Nat)
    (h : List.Pairwise R l) :
    List.Pairwise (fun p q : Nat × α => R p.2 q.2) (List.enumFrom n l) := by
  induction l generalizing n with
  | nil => exact List.Pairwise.nil
  | cons a tl ih =>
    rcases List.pairwise_cons.mp h with ⟨ha, htl⟩
    refine List.pairwise_cons.mpr ⟨?_, ih (n + 1) htl⟩
    intro q hq
    exact ha q.2 (snd_mem_of_mem_enumFrom tl (n + 1) q hq)

/-- **C7**: the `userRankingPoints` record of `allTimeData` stores, for a
user, the sum over all (year, week) groups of `max 1 (10 - (r - 1))` where
`r = i + 1` is the card's 1-based rank in that week's score-descending
order (first conjunct); the all-time entries are ordered by these summed
ranking points, descending (second conjunct); and every all-time entry's
`points` field is exactly its user's summed ranking points (third
conjunct). -/
theorem allTime_rankingPoints (cards : List CardRow) (bets : List BetRow) (u : String) :
    pointsOf (userRankingPointsMap cards) u
      = ((weeklyGroupKeys cards).map (fun k =>
          (((weekCardsSorted cards k).enum.filter (fun p => p.2.user_id == u)).map
            (fun p => max 1 (10 - ((p.1 + 1) - 1)))).sum)).sum
    ∧ List.Pairwise entryPointsDesc (allTimeData cards bets)
    ∧ (allTimeData cards bets).all
        (fun e => pointsOf (userRankingPointsMap cards) e.odile == e.points) = true := by
  refine ⟨?_, ?_, ?_⟩
  · rw [userRankingPointsMap, foldl_bump_pointsOf _ [] u (by simp)]
    rw [show pointsOf [] u = 0 from rfl, Nat.zero_add]
    rw [allAssignments, sum_filter_values_flatMap]
    refine congrArg List.sum (List.map_congr_left (fun k _ => ?_))
    rw [weekAssignments, weekAssignments_user_sum]
  · rw [allTimeData]
    simp only
    rw [List.pairwise_map]
    have hs := List.sorted_insertionSort entryPointsDesc
      ((userRankingPointsMap cards).map (fun p =>
        ({ odile := p.1, rank := 1, wins := userWins cards bets p.1,
           losses := userLosses cards bets p.1,
           winRate := winRate (userWins cards bets p.1) (userLosses cards bets p.1),
           points := p.2 } : LBEntry)))
    exact pairwise_enumFrom entryPointsDesc _ 0 hs
  · rw [List.all_eq_true]
    intro e he
    simp only [allTimeData] at he
    rcases List.mem_map.mp he with ⟨q, hq, rfl⟩
    have hq2 : q.2 ∈ (userRankingPointsMap cards).map (fun p =>
        ({ odile := p.1, rank := 1, wins := userWins cards bets p.1,
           losses := userLosses cards bets p.1,
           winRate := winRate (userWins cards bets p.1) (userLosses cards bets p.1),
           points := p.2 } : LBEntry)) :=
      ((List.perm_insertionSort entryPointsDesc _).mem_iff).mp
        (snd_mem_of_mem_enumFrom _ 0 q hq)
    rcases List.mem_map.mp hq2 with ⟨p, hp, hqe⟩
    rw [beq_iff_eq, ← hqe]
    exact pointsOf_eq_of_mem (userRankingPointsMap cards) p
      (foldl_bump_keys_nodup _ [] (by simp)) hp

/-- Witness for `allTime_rankingPoints`, realising the spec's scenario:
in `cardsE`, user `u01` finishes weekly rank 1 once (10 points) and weekly
rank 11 once (floored to 1 point), for an all-time total of 11. -/
theorem allTime_rankingPoints_witness :
    pointsOf (userRankingPointsMap cardsE) "u01" = 11 :=
  (allTime_rankingPoints cardsE [] "u01").1.trans (by decide)

/-- **C8**: for a TOTAL pick on a final game (spec-modelled grading, the
sync script being outside src): the pick grades WON exactly when OVER was
selected and the actual combined total strictly exceeds the captured line,
or UNDER was selected and the actual total is strictly below it (first
conjunct); it grades PUSH exactly when the actual total equals the line
(second conjunct); and a PUSH — stored as a null `result` — contributes 0
to the trigger-recomputed card score and increments neither the wins nor
the losses that `userBetStats` feeds into `winRate` (third conjunct). -/
theorem gradeTotalPick_spec (sel : TotalSelection) (line total : Rat)
    (cards : List CardRow) (bets : List BetRow) (cid : Nat) (b : BetRow) (u : String) :
    (gradeTotalPick sel line total = GradeResult.won
      ↔ ((sel = TotalSelection.over ∧ line < total)
          ∨ (sel = TotalSelection.under ∧ total < line)))
    ∧ (gradeTotalPick sel line total = GradeResult.push ↔ total = line)
    ∧ (total = line → b.result = resultOfGrade (gradeTotalPick sel line total) →
        update_card_score (bets ++ [b]) cid = update_card_score bets cid
        ∧ userWins cards (bets ++ [b]) u = userWins cards bets u
        ∧ userLosses cards (bets ++ [b]) u = userLosses cards bets u) := by
  have hwon : gradeTotalPick sel line total = GradeResult.won
      ↔ ((sel = TotalSelection.over ∧ line < total)
          ∨ (sel = TotalSelection.under ∧ total < line)) := by
    rw [gradeTotalPick.eq_def]
    by_cases he : total = line
    · rw [if_pos he]
      constructor
      · intro h
        cases h
      · rintro (⟨-, hlt⟩ | ⟨-, hlt⟩) <;> (rw [he] at hlt; exact absurd hlt (lt_irrefl line))
    · rw [if_neg he]
      cases sel with
      | over =>
        by_cases hlt : line < total
        · rw [if_pos hlt]
          simp [hlt]
        · rw [if_neg hlt]
          constructor
          · intro h
            cases h
          · rintro (⟨-, h⟩ | ⟨h, -⟩)
            · exact absurd h hlt
            · cases h
      | under =>
        by_cases hlt : total < line
        · rw [if_pos hlt]
          simp [hlt]
        · rw [if_neg hlt]
          constructor
          · intro h
            cases h
          · rintro (⟨h, -⟩ | ⟨-, h⟩)
            · cases h
            · exact absurd h hlt
  have hpush : gradeTotalPick sel line total = GradeResult.push ↔ total = line := by
    rw [gradeTotalPick.eq_def]
    by_cases he : total = line
    · rw [if_pos he]
      simp [he]
    · rw [if_neg he]
      constructor
      · intro h
        cases sel with
        | over => revert h; by_cases hlt : line < total <;> simp [hlt]
        | under => revert h; by_cases hlt : total < line <;> simp [hlt]
      · intro h
        exact absurd h he
  refine ⟨hwon, hpush, ?_⟩
  intro he hb
  rw [hpush.mpr he] at hb
  have hbnone : b.result = none := hb
  have hscore : update_card_score (bets ++ [b]) cid = update_card_score bets cid := by
    rw [update_card_score, update_card_score, List.filter_append]
    have : [b].filter (fun b2 => b2.card_id == cid && b2.result == some true) = [] := by
      rw [List.filter_cons, hbnone]
      simp
    rw [this, List.append_nil]
  have hwins : userWins cards (bets ++ [b]) u = userWins cards bets u := by
    rw [userWins, userWins, List.filter_append]
    have : [b].filter (fun b2 => betUser cards b2 == some u && b2.result == some true)
        = [] := by
      rw [List.filter_cons, hbnone]
      simp
    rw [this, List.append_nil]
  have hlosses : userLosses cards (bets ++ [b]) u = userLosses cards bets u := by
    rw [userLosses, userLosses, List.filter_append]
    have : [b].filter (fun b2 => betUser cards b2 == some u && b2.result == some false)
        = [] := by
      rw [List.filter_cons, hbnone]
      simp
    rw [this, List.append_nil]
  exact ⟨hscore, hwins, hlosses⟩

/-- Witness for `gradeTotalPick_spec`, realising the spec's push scenario:
an UNDER pick at line 45.0 with actual combined score 45 grades PUSH, and
appending the resulting null-`result` bet to card 1 changes neither the
recomputed score nor the win/loss counts. -/
theorem gradeTotalPick_spec_witness :
    gradeTotalPick TotalSelection.under 45 45 = GradeResult.push
    ∧ (update_card_score (betsC8 ++ [bC8]) 1 = update_card_score betsC8 1
       ∧ userWins cardsC8 (betsC8 ++ [bC8]) "u1" = userWins cardsC8 betsC8 "u1"
       ∧ userLosses cardsC8 (betsC8 ++ [bC8]) "u1" = userLosses cardsC8 betsC8 "u1") :=
  ⟨((gradeTotalPick_spec TotalSelection.under 45 45 cardsC8 betsC8 1 bC8 "u1").2.1).mpr rfl,
   (gradeTotalPick_spec TotalSelection.under 45 45 cardsC8 betsC8 1 bC8 "u1").2.2 rfl
     (by rfl)⟩

end BetBuddies
